import Mathlib

set_option maxRecDepth 4000

/-!
# Verification of the Directory Scanner CLI

Shallow embedding of the directory-scanning and filtering engine
(`day-09-logger-tool` corpus, file `index.js` of the Day 4 Directory
Scanner CLI): size-filter parsing, glob name matching, the filter
pipeline, recursive traversal with a depth bound, the statistics
aggregator, `formatBytes`, and the `main` control flow.

Numbers that are JS `number`s are modelled as `ℚ` (exact for every
value the claims touch; the JS float operations involved — parsing
small decimals, multiplying by powers of 1024, dividing by 1024 —
are exact on these inputs). File sizes from `stat` are `ℕ`.
-/

namespace DirScanner

/-! ## Size filter parser

Source:
```
const parseSizeFilter = (filterStr) => {
  const match = filterStr.match(/^([><=]=?)(\d+(?:\.\d+)?)(KB|MB|GB|B)?$/i);
  if (!match) { throw new Error('Invalid size filter format. ...'); }
  const [, operator, sizeStr, unit = 'B'] = match;
  const size = Number(sizeStr);
  const multipliers = { B: 1, KB: 1024, MB: 1024 * 1024, GB: 1024 * 1024 * 1024 };
  const bytes = size * (multipliers[unit.toUpperCase()] || 1);
  return { operator, bytes };
};
```
The thrown error is modelled as `none`.  The regex is deterministic
except for the greedy `[><=]=?` operator group, whose backtracking
(two-character operator first, then one-character) is modelled by
`Option.orElse`. -/

structure SizeFilter where
  operator : String
  bytes : ℚ
  deriving DecidableEq, Repr

/-- Value of a digit string, as `Number` reads the integer part. -/
def digitsToNat (ds : List Char) : Nat :=
  ds.foldl (fun n c => n * 10 + (c.toNat - 48)) 0

/-- The `\d+(?:\.\d+)?` group: greedy digit run, then an optional
fraction taken only when a `.` is followed by at least one digit.
Returns the numeric value (`Number(sizeStr)`, exact here) and the
unconsumed remainder of the string. -/
def parseNumber (cs : List Char) : Option (ℚ × List Char) :=
  let intDigits := cs.takeWhile Char.isDigit
  let rest := cs.dropWhile Char.isDigit
  if intDigits.isEmpty then none
  else
    match rest with
    | '.' :: r2 =>
      let fracDigits := r2.takeWhile Char.isDigit
      let r3 := r2.dropWhile Char.isDigit
      if fracDigits.isEmpty then some ((digitsToNat intDigits : ℚ), rest)
      else some ((digitsToNat intDigits : ℚ)
                   + (digitsToNat fracDigits : ℚ) / (10 : ℚ) ^ fracDigits.length, r3)
    | _ => some ((digitsToNat intDigits : ℚ), rest)

/-- The trailing `(KB|MB|GB|B)?$` group together with the
`multipliers[unit.toUpperCase()]` lookup: the whole remainder must be
one of the units (case-insensitively) or empty; the result is the
byte multiplier.  The alternation is deterministic because no unit is
a proper prefix of another at the same starting character. -/
def parseUnitEnd (cs : List Char) : Option ℚ :=
  let u := cs.map Char.toUpper
  if u = [] then some 1
  else if u = ['B'] then some 1
  else if u = ['K', 'B'] then some 1024
  else if u = ['M', 'B'] then some (1024 * 1024)
  else if u = ['G', 'B'] then some (1024 * 1024 * 1024)
  else none

/-- Number and unit after a fixed operator prefix; `bytes = size * multiplier`. -/
def parseAfterOp (op : String) (rest : List Char) : Option SizeFilter :=
  (parseNumber rest).bind fun qr =>
    (parseUnitEnd qr.2).map fun m => ⟨op, qr.1 * m⟩

/-- The parser, with the regex's operator group `[><=]=?`:
when the first character is one of `> < =` and the second is `=`, the
greedy two-character operator is tried first and the one-character
operator on backtracking (which in fact always fails, since the
leftover `=` cannot start `\d+`). -/
def parseSizeFilter (filterStr : String) : Option SizeFilter :=
  match filterStr.data with
  | c :: '=' :: rest =>
    if c = '>' ∨ c = '<' ∨ c = '=' then
      (parseAfterOp (String.mk [c, '=']) rest) <|>
        (parseAfterOp (String.mk [c]) ('=' :: rest))
    else none
  | c :: rest =>
    if c = '>' ∨ c = '<' ∨ c = '=' then parseAfterOp (String.mk [c]) rest
    else none
  | [] => none

/-! ## Size filter matching

Source:
```
const matchesSizeFilter = (fileSize, sizeFilter) => {
  if (!sizeFilter) return true;
  const { operator, bytes } = sizeFilter;
  switch (operator) {
    case '>': return fileSize > bytes;
    case '<': return fileSize < bytes;
    case '=': return fileSize === bytes;
    case '>=': return fileSize >= bytes;
    case '<=': return fileSize <= bytes;
    default: return true;
  }
};
``` -/

def matchesSizeFilter (fileSize : Nat) (sizeFilter : Option SizeFilter) : Bool :=
  match sizeFilter with
  | none => true
  | some sf =>
    if sf.operator = ">" then decide ((fileSize : ℚ) > sf.bytes)
    else if sf.operator = "<" then decide ((fileSize : ℚ) < sf.bytes)
    else if sf.operator = "=" then decide ((fileSize : ℚ) = sf.bytes)
    else if sf.operator = ">=" then decide ((fileSize : ℚ) ≥ sf.bytes)
    else if sf.operator = "<=" then decide ((fileSize : ℚ) ≤ sf.bytes)
    else true

/-! ## formatBytes

Source:
```
const formatBytes = (bytes) => {
  const units = ['B', 'KB', 'MB', 'GB'];
  let size = bytes;
  let unitIndex = 0;
  while (size >= 1024 && unitIndex < units.length - 1) {
    size /= 1024;
    unitIndex += 1;
  }
  return `${size.toFixed(2)} ${units[unitIndex]}`;
};
```
The while loop is modelled with the remaining iteration budget
`units.length - 1 - unitIndex` (initially 3) as the structural
argument; the result's second component is the number of divisions
performed, i.e. the final `unitIndex`. -/

def fbLoop (size : ℚ) : Nat → ℚ × Nat
  | 0 => (size, 0)
  | b + 1 =>
    if 1024 ≤ size then
      let p := fbLoop (size / 1024) b
      (p.1, p.2 + 1)
    else (size, 0)

/-- Two decimal digits (for `m < 100`). -/
def twoDigits (m : Nat) : String :=
  String.mk [Char.ofNat (48 + m / 10), Char.ofNat (48 + m % 10)]

/-- JS `toFixed(2)` for the non-negative values produced here: round
half away from zero to two decimals (for positives: half up), render
with exactly two digits after the point. -/
def toFixed2 (q : ℚ) : String :=
  let n := (⌊q * 100 + 1 / 2⌋).toNat
  toString (n / 100) ++ "." ++ twoDigits (n % 100)

def formatBytes (bytes : ℚ) : String :=
  let p := fbLoop bytes 3
  toFixed2 p.1 ++ " " ++ (["B", "KB", "MB", "GB"].getD p.2 "")

/-- The unit index the specification describes: the largest unit
among B, KB, MB, GB whose scaled value stays below 1024, with GB as
the fallback. -/
def bytesUnitIndex (b : ℚ) : Nat :=
  if b < 1024 then 0
  else if b < 1024 ^ 2 then 1
  else if b < 1024 ^ 3 then 2
  else 3

/-! ### Grammar of the size-filter string (for stating parser claims)

The shape `<operator><number>[<unit>]` of the regex, as predicates on
the three pieces. -/

/-- The `\d+(?:\.\d+)?` token in full: a digit run, optionally
followed by a dot and another digit run. -/
def numToken (cs : List Char) : Bool :=
  let a := cs.takeWhile Char.isDigit
  let r := cs.dropWhile Char.isDigit
  !a.isEmpty &&
    (r.isEmpty ||
      (match r with
       | '.' :: b => !b.isEmpty && b.all Char.isDigit
       | _ => false))

/-- Numeric value of a wellformed number token. -/
def numValue (cs : List Char) : ℚ :=
  let a := cs.takeWhile Char.isDigit
  let r := cs.dropWhile Char.isDigit
  match r with
  | '.' :: b => (digitsToNat a : ℚ) + (digitsToNat b : ℚ) / (10 : ℚ) ^ b.length
  | _ => (digitsToNat a : ℚ)

/-- A case variant of `B`, `KB`, `MB`, `GB`, or absent. -/
def unitToken (u : String) : Bool :=
  [([] : List Char), ['B'], ['K', 'B'], ['M', 'B'], ['G', 'B']].contains
    (u.data.map Char.toUpper)

/-- The 1024-based byte multiplier of a unit (bytes when absent). -/
def unitMultiplier (u : String) : ℚ :=
  let v := u.data.map Char.toUpper
  if v = ['K', 'B'] then 1024
  else if v = ['M', 'B'] then 1024 * 1024
  else if v = ['G', 'B'] then 1024 * 1024 * 1024
  else 1

/-- The six operators the regex `[><=]=?` accepts. -/
def sizeOps : List String := [">", "<", "=", ">=", "<=", "=="]

/-! ## Name pattern matcher

Source:
```
const matchesNamePattern = (fileName, pattern) => {
  if (!pattern) return true;
  const regex = new RegExp(
    pattern.replace(/\*/g, '.*').replace(/\?/g, '.'),
    'i'
  );
  return regex.test(fileName);
};
```
Note that the replacement does *not* escape the other regex
metacharacters and the compiled regex is *not* anchored:
`regex.test` succeeds when the regex matches anywhere inside the
filename.  The embedding covers patterns whose characters are not
regex metacharacters other than `*`, `?` and `.` — for those the
translated regex is the character-wise image below, a sequence of
literal characters, `.` (one arbitrary character: produced both by
`?` and by a verbatim `.` of the pattern, which stays a wildcard
because nothing is escaped) and `.*` (zero or more arbitrary
characters).  The `i` flag is per-character lower-casing as in the
ASCII fragment of JS canonicalisation. -/

inductive GlobTok where
  | lit (c : Char)
  | any
  | starAny
  deriving DecidableEq, Repr

/-- Character-wise image of
`pattern.replace(/\*/g, '.*').replace(/\?/g, '.')` read back as a
regex: `*` ↦ `.*`, `?` ↦ `.`, and an unescaped `.` of the pattern is
itself the any-character wildcard. -/
def compileGlobChar (c : Char) : GlobTok :=
  if c = '*' then .starAny
  else if c = '?' then .any
  else if c = '.' then .any
  else .lit c

def compileGlob (pattern : String) : List GlobTok :=
  pattern.data.map compileGlobChar

/-- Regex matching of a token sequence against a *prefix* of the
character list (the right end is unanchored, as `test` is), by fuel;
any fuel above `ts.length + cs.length` gives the fixpoint. -/
def matchTokF : Nat → List GlobTok → List Char → Bool
  | 0, _, _ => false
  | _ + 1, [], _ => true
  | _ + 1, .lit _ :: _, [] => false
  | f + 1, .lit c :: ts, x :: xs =>
    (x.toLower = c.toLower) && matchTokF f ts xs
  | _ + 1, .any :: _, [] => false
  | f + 1, .any :: ts, _ :: xs => matchTokF f ts xs
  | f + 1, .starAny :: ts, [] => matchTokF f ts []
  | f + 1, .starAny :: ts, x :: xs =>
    matchTokF f ts (x :: xs) || matchTokF f (.starAny :: ts) xs

def matchHere (ts : List GlobTok) (cs : List Char) : Bool :=
  matchTokF (ts.length + cs.length + 1) ts cs

/-- JS `regex.test`: the unanchored search succeeds iff the regex
matches starting at some position of the string. -/
def regexSearch (ts : List GlobTok) (cs : List Char) : Bool :=
  (List.range (cs.length + 1)).any fun i => matchHere ts (cs.drop i)

def matchesNamePattern (fileName : String) (pattern : Option String) : Bool :=
  match pattern with
  | none => true
  | some p => regexSearch (compileGlob p) fileName.data

/-! ### The name matcher the specification describes

Modelled from the spec (for comparison with `matchesNamePattern`):
"escaping all regex metacharacters except `*` and `?`, then mapping
`*` → zero or more of any character and `?` → exactly one of any
character, and anchoring the whole pattern to the entire filename",
case-insensitively. -/

/-- Spec translation: every character except `*` and `?` is a
literal (escaped). -/
def specGlobChar (c : Char) : GlobTok :=
  if c = '*' then .starAny
  else if c = '?' then .any
  else .lit c

/-- Anchored (entire-string) matching of a token sequence, by fuel. -/
def matchAllF : Nat → List GlobTok → List Char → Bool
  | 0, _, _ => false
  | _ + 1, [], [] => true
  | _ + 1, [], _ :: _ => false
  | _ + 1, .lit _ :: _, [] => false
  | f + 1, .lit c :: ts, x :: xs =>
    (x.toLower = c.toLower) && matchAllF f ts xs
  | _ + 1, .any :: _, [] => false
  | f + 1, .any :: ts, _ :: xs => matchAllF f ts xs
  | f + 1, .starAny :: ts, [] => matchAllF f ts []
  | f + 1, .starAny :: ts, x :: xs =>
    matchAllF f ts (x :: xs) || matchAllF f (.starAny :: ts) xs

/-- The name test as the specification words it: case-insensitive
escaped glob, anchored at both ends; a null pattern matches
everything. -/
def specNameMatch (fileName : String) (pattern : Option String) : Bool :=
  match pattern with
  | none => true
  | some p =>
    let ts := p.data.map specGlobChar
    matchAllF (ts.length + fileName.data.length + 1) ts fileName.data

/-! ## Extension extraction and extension filter

Source:
```
const matchesExtension = (filePath, extensions) => {
  if (extensions.length === 0) return true;
  const ext = path.extname(filePath).toLowerCase();
  return extensions.includes(ext);
};
```
`path.extname` returns the suffix of the base name from its last
dot, or the empty string when there is no dot or the only dot is the
leading character of a hidden file.  The traversal always applies it
to a path whose final segment is the entry name, so it is modelled
on the name. -/

/-- Index of the last `.` in a character list, if any. -/
def lastDotPos : List Char → Option Nat
  | [] => none
  | c :: rest =>
    match lastDotPos rest with
    | some i => some (i + 1)
    | none => if c = '.' then some 0 else none

/-- Node `path.extname` on a base name. -/
def extname (name : String) : String :=
  match lastDotPos name.data with
  | none => ""
  | some 0 => ""
  | some i => String.mk (name.data.drop i)

def matchesExtension (fileName : String) (extensions : List String) : Bool :=
  if extensions.isEmpty then true
  else extensions.contains (extname fileName).toLower

/-! ## Content search

Source:
```
const containsSearchText = (filePath, searchText) => {
  if (!searchText) return true;
  try {
    const content = fs.readFileSync(filePath, 'utf8');
    return content.toLowerCase().includes(searchText.toLowerCase());
  } catch (error) {
    // Skip binary files or read errors
    return false;
  }
};
```
A file's readable text content is part of the file-system model: a
file whose content is `none` is one whose read throws (permission
error, decode failure, vanished file); the `catch` turns that into
`false`. -/

/-- JS `hay.includes(needle)` on character lists. -/
def listContains (needle hay : List Char) : Bool :=
  (List.range (hay.length + 1)).any fun i => needle.isPrefixOf (hay.drop i)

def containsSearchText (content : Option String) (searchText : Option String) : Bool :=
  match searchText with
  | none => true
  | some t =>
    match content with
    | none => false
    | some c => listContains t.toLower.data c.toLower.data

/-! ## File-system model, configuration and records

`ScanOptions` mirrors the `options` object built by
`parseArguments`: `depth` is a JS number defaulting to `Infinity`
(modelled `none`; `--depth` validation only enforces non-negativity),
`dirPath` uses `""` for the JS falsy null/empty initial value.

The file system is a tree: a regular file carries the stat data and
the text content a successful `readFileSync` would return (`none`
when the read throws); a directory carries a `readable` flag
(`readdirSync` throws when false); a `broken` entry is one whose
`statSync` throws (vanished or unreadable between listing and stat).
Paths are modelled as segment lists relative to the scan root. -/

structure ScanOptions where
  dirPath : String
  depth : Option ℚ
  extensions : List String
  namePattern : Option String
  sizeFilter : Option SizeFilter
  searchText : Option String
  showTree : Bool
  showStats : Bool
  outputJson : Bool
  outputCsv : Bool
  deriving Repr

/-- The initial `options` object of `parseArguments`. -/
def defaultOptions : ScanOptions :=
  ⟨"", none, [], none, none, none, false, false, false, false⟩

structure FileMeta where
  name : String
  size : Nat
  content : Option String
  mtime : Nat
  ctime : Nat
  deriving DecidableEq, Repr

inductive FSEntry where
  | file (meta : FileMeta)
  | dir (name : String) (readable : Bool) (entries : List FSEntry)
  | broken (name : String)
  deriving Repr

/-- The `fileInfo` record built for each regular file.  The source's
absolute `path` field is the scan root joined with `relativePath`
and is determined by it (paths are modelled root-relative), so it is
not repeated here. -/
structure FileRecord where
  name : String
  relativePath : List String
  size : Nat
  sizeHuman : String
  extension : String
  modified : Nat
  created : Nat
  deriving DecidableEq, Repr

def mkFileRecord (pfx : List String) (m : FileMeta) : FileRecord :=
  ⟨m.name, pfx ++ [m.name], m.size, formatBytes (m.size : ℚ),
    (extname m.name).toLower, m.mtime, m.ctime⟩

/-! ## Filter pipeline

Source (inside `scanDirectory`):
```
if (matchesExtension(itemPath, options.extensions) &&
    matchesNamePattern(item, options.namePattern) &&
    matchesSizeFilter(stats.size, options.sizeFilter) &&
    containsSearchText(itemPath, options.searchText)) {
  results.push(fileInfo);
}
```
-/

def passesFilters (opts : ScanOptions) (m : FileMeta) : Bool :=
  matchesExtension m.name opts.extensions &&
  matchesNamePattern m.name opts.namePattern &&
  matchesSizeFilter m.size opts.sizeFilter &&
  containsSearchText m.content opts.searchText

/-- The content test instrumented with whether `readFileSync`
was invoked (it is the first thing the `try` block does whenever
`searchText` is set, and never happens otherwise). -/
def containsSearchTextR (content : Option String) (searchText : Option String) :
    Bool × Bool :=
  match searchText with
  | none => (true, false)
  | some t =>
    match content with
    | none => (false, true)
    | some c => (listContains t.toLower.data c.toLower.data, true)

/-- The filter conjunction instrumented with whether a content read
was attempted, following the JS `&&` short-circuit evaluation order:
extension, then name, then size, then content. -/
def applyFiltersR (opts : ScanOptions) (m : FileMeta) : Bool × Bool :=
  if matchesExtension m.name opts.extensions then
    if matchesNamePattern m.name opts.namePattern then
      if matchesSizeFilter m.size opts.sizeFilter then
        containsSearchTextR m.content opts.searchText
      else (false, false)
    else (false, false)
  else (false, false)

/-! ## Traversal engine

Source:
```
const scanDirectory = (dirPath, currentDepth = 0, options) => {
  if (currentDepth > options.depth) return [];
  const results = [];
  try {
    const items = fs.readdirSync(dirPath);
    for (const item of items) {
      const itemPath = path.join(dirPath, item);
      const stats = fs.statSync(itemPath);
      if (stats.isDirectory()) {
        const subResults = scanDirectory(itemPath, currentDepth + 1, options);
        results.push(...subResults);
      } else if (stats.isFile()) {
        const fileInfo = { ... };
        if (/* filters */) { results.push(fileInfo); }
      }
    }
  } catch (error) {
    console.warn(`Warning: Cannot read directory ...`);
  }
  return results;
};
```
The `try` wraps the whole loop, so a `statSync` throw on one entry
abandons the remaining entries of that directory (returning the
results accumulated so far — here none follow, since the loop
aborts); it never propagates past this call.  `scanLoop` is the
`for` loop; the recursive call `scanDirectory(itemPath,
currentDepth + 1, options)` is inlined at the `dir` case — its body
first re-checks the depth bound and returns `[]` for an unreadable
directory (empty `results` after the caught `readdirSync` throw). -/

def depthExceeded (currentDepth : Nat) (depth : Option ℚ) : Bool :=
  match depth with
  | none => false
  | some q => decide ((currentDepth : ℚ) > q)

def scanLoop (opts : ScanOptions) (currentDepth : Nat) (pfx : List String) :
    List FSEntry → List FileRecord
  | [] => []
  | .broken _ :: _ => []
  | .file m :: rest =>
    (if passesFilters opts m then [mkFileRecord pfx m] else []) ++
      scanLoop opts currentDepth pfx rest
  | .dir n rdb subs :: rest =>
    (if depthExceeded (currentDepth + 1) opts.depth then []
     else if rdb then scanLoop opts (currentDepth + 1) (pfx ++ [n]) subs
     else []) ++
      scanLoop opts currentDepth pfx rest

/-- Entry point for one directory (the scan of the root is
`scanDirectory opts 0 [] rootReadable rootEntries`). -/
def scanDirectory (opts : ScanOptions) (currentDepth : Nat) (pfx : List String)
    (readable : Bool) (entries : List FSEntry) : List FileRecord :=
  if depthExceeded currentDepth opts.depth then []
  else if readable then scanLoop opts currentDepth pfx entries
  else []

/-- The same traversal with the filter pipeline stripped out: the
regular files the scan enumerates within the depth bound, with the
prefix each was found under. -/
def enumLoop (depth : Option ℚ) (currentDepth : Nat) (pfx : List String) :
    List FSEntry → List (List String × FileMeta)
  | [] => []
  | .broken _ :: _ => []
  | .file m :: rest => (pfx, m) :: enumLoop depth currentDepth pfx rest
  | .dir n rdb subs :: rest =>
    (if depthExceeded (currentDepth + 1) depth then []
     else if rdb then enumLoop depth (currentDepth + 1) (pfx ++ [n]) subs
     else []) ++
      enumLoop depth currentDepth pfx rest

def enumDirectory (depth : Option ℚ) (currentDepth : Nat) (pfx : List String)
    (readable : Bool) (entries : List FSEntry) : List (List String × FileMeta) :=
  if depthExceeded currentDepth depth then []
  else if readable then enumLoop depth currentDepth pfx entries
  else []

/-- Declarative collection of every regular file within the depth
bound, written without the traversal's failure semantics: it never
aborts on a stat failure and descends into every directory within
the bound regardless of readability flags.  On clean file systems it
coincides with what the traversal enumerates. -/
def allFilesLE (depth : Option ℚ) (currentDepth : Nat) (pfx : List String) :
    List FSEntry → List (List String × FileMeta)
  | [] => []
  | .broken _ :: rest => allFilesLE depth currentDepth pfx rest
  | .file m :: rest => (pfx, m) :: allFilesLE depth currentDepth pfx rest
  | .dir n _ subs :: rest =>
    (if depthExceeded (currentDepth + 1) depth then []
     else allFilesLE depth (currentDepth + 1) (pfx ++ [n]) subs) ++
      allFilesLE depth currentDepth pfx rest

/-- A file system with no stat failures and no unreadable
directories. -/
def cleanEntries : List FSEntry → Bool
  | [] => true
  | .broken _ :: _ => false
  | .file _ :: rest => cleanEntries rest
  | .dir _ r subs :: rest => r && cleanEntries subs && cleanEntries rest

/-! ## Statistics aggregator

Source (inside `displayStats`):
```
const extensionCounts = files.reduce((acc, file) => {
  const ext = file.extension || '(no extension)';
  acc[ext] = (acc[ext] || 0) + 1;
  return acc;
}, {});
const sizeDistribution = {
  small: files.filter(f => f.size < 1024).length,
  medium: files.filter(f => f.size >= 1024 && f.size < 1024 * 1024).length,
  large: files.filter(f => f.size >= 1024 * 1024 && f.size < 1024 * 1024 * 1024).length,
  huge: files.filter(f => f.size >= 1024 * 1024 * 1024).length
};
```
The accumulator object is modelled as an association list in key
insertion order. -/

structure SizeDistribution where
  small : Nat
  medium : Nat
  large : Nat
  huge : Nat
  deriving DecidableEq, Repr

def sizeDistribution (files : List FileRecord) : SizeDistribution :=
  ⟨(files.filter fun f => decide (f.size < 1024)).length,
   (files.filter fun f => decide (f.size ≥ 1024) && decide (f.size < 1024 * 1024)).length,
   (files.filter fun f =>
     decide (f.size ≥ 1024 * 1024) && decide (f.size < 1024 * 1024 * 1024)).length,
   (files.filter fun f => decide (f.size ≥ 1024 * 1024 * 1024)).length⟩

/-- The update `acc[ext] = (acc[ext] || 0) + 1` on the association-list model. -/
def bumpCount (acc : List (String × Nat)) (key : String) : List (String × Nat) :=
  if acc.any fun p => p.1 = key then
    acc.map fun p => if p.1 = key then (p.1, p.2 + 1) else p
  else acc ++ [(key, 1)]

def extensionCounts (files : List FileRecord) : List (String × Nat) :=
  files.foldl
    (fun acc f => bumpCount acc (if f.extension = "" then "(no extension)" else f.extension))
    []

def countsTotal (acc : List (String × Nat)) : Nat :=
  (acc.map Prod.snd).sum

/-! ## Command-line interface

Source: `isHelpRequested`, `parseArguments` and `main`.
`process.argv.length <= 2` says the sliced argument list is empty.
`Number(...)` is modelled for the decimal forms `[+-]?digits`,
`[+-]?digits.digits`, `[+-]?.digits`, `[+-]?digits.`, `[+-]?Infinity`
and the empty string; other forms (hex, exponents, surrounding
whitespace) do not occur in the claims and are mapped to NaN
(`none`). -/

inductive JsNum where
  | num (q : ℚ)
  | inf
  | negInf
  deriving DecidableEq, Repr

/-- Unsigned decimal literal: digits, optionally around a single dot
(at least one digit overall), nothing after. -/
def parseDecimal (cs : List Char) : Option ℚ :=
  let a := cs.takeWhile Char.isDigit
  let r := cs.dropWhile Char.isDigit
  match r with
  | [] => if a.isEmpty then none else some (digitsToNat a : ℚ)
  | '.' :: r2 =>
    let b := r2.takeWhile Char.isDigit
    let r3 := r2.dropWhile Char.isDigit
    if ¬r3.isEmpty then none
    else if a.isEmpty ∧ b.isEmpty then none
    else some ((digitsToNat a : ℚ) + (digitsToNat b : ℚ) / (10 : ℚ) ^ b.length)
  | _ => none

/-- JS `Number(s)`, `none` being NaN, and the empty string giving 0. -/
def jsNumber (s : String) : Option JsNum :=
  match s.data with
  | [] => some (.num 0)
  | '-' :: rest =>
    if rest = "Infinity".data then some .negInf
    else (parseDecimal rest).map fun q => .num (-q)
  | '+' :: rest =>
    if rest = "Infinity".data then some .inf
    else (parseDecimal rest).map .num
  | cs =>
    if cs = "Infinity".data then some .inf
    else (parseDecimal cs).map .num

def isHelpRequested (args : List String) : Bool :=
  args.isEmpty || args.contains "--help"

/-- The `for` loop of `parseArguments` over `args = process.argv.slice(2)`,
with the thrown `Error`s as `Except.error` (the throw from
`parseSizeFilter` included — `main` catches them all in one place).
The option-value guard `!args[i + 1] || args[i + 1].startsWith('--')`
is falsy-faithful: a present-but-empty value is rejected too.
`dirPath` is `""` while unset (both JS `null` and `''` are falsy, so
`!options.dirPath` is modelled `dirPath = ""`). -/
def parseArgsLoop : List String → ScanOptions → Except String ScanOptions
  | [], opts =>
    if opts.dirPath = "" then
      .error "Missing directory path. Use --help for usage information."
    else .ok opts
  | arg :: rest, opts =>
    if arg.startsWith "--" then
      if arg = "--depth" then
        match rest with
        | [] => .error "The --depth option requires a number."
        | v :: rest2 =>
          if v = "" ∨ v.startsWith "--" then .error "The --depth option requires a number."
          else
            match jsNumber v with
            | none => .error "Depth must be a non-negative number."
            | some .negInf => .error "Depth must be a non-negative number."
            | some .inf => parseArgsLoop rest2 { opts with depth := none }
            | some (.num q) =>
              if q < 0 then .error "Depth must be a non-negative number."
              else parseArgsLoop rest2 { opts with depth := some q }
      else if arg = "--ext" then
        match rest with
        | [] => .error "The --ext option requires extensions."
        | v :: rest2 =>
          if v = "" ∨ v.startsWith "--" then .error "The --ext option requires extensions."
          else
            parseArgsLoop rest2
              { opts with extensions := (v.splitOn ",").map fun e => e.trim.toLower }
      else if arg = "--name" then
        match rest with
        | [] => .error "The --name option requires a pattern."
        | v :: rest2 =>
          if v = "" ∨ v.startsWith "--" then .error "The --name option requires a pattern."
          else parseArgsLoop rest2 { opts with namePattern := some v }
      else if arg = "--size" then
        match rest with
        | [] => .error "The --size option requires a size filter."
        | v :: rest2 =>
          if v = "" ∨ v.startsWith "--" then .error "The --size option requires a size filter."
          else
            match parseSizeFilter v with
            | none =>
              .error "Invalid size filter format. Use: >,<,=,>=,<= followed by number and optional unit (KB,MB,GB)."
            | some f => parseArgsLoop rest2 { opts with sizeFilter := some f }
      else if arg = "--search" then
        match rest with
        | [] => .error "The --search option requires search text."
        | v :: rest2 =>
          if v = "" ∨ v.startsWith "--" then .error "The --search option requires search text."
          else parseArgsLoop rest2 { opts with searchText := some v }
      else if arg = "--tree" then parseArgsLoop rest { opts with showTree := true }
      else if arg = "--stats" then parseArgsLoop rest { opts with showStats := true }
      else if arg = "--json" then parseArgsLoop rest { opts with outputJson := true }
      else if arg = "--csv" then parseArgsLoop rest { opts with outputCsv := true }
      else if arg = "--help" then parseArgsLoop rest opts
      else .error ("Unknown option: " ++ arg)
    else if opts.dirPath = "" then parseArgsLoop rest { opts with dirPath := arg }
    else .error ("Unexpected argument: " ++ arg)

def parseArguments (args : List String) : Except String ScanOptions :=
  parseArgsLoop args defaultOptions

/-! ## main

Source:
```
const main = () => {
  if (isHelpRequested()) { console.log(...); process.exit(0); }
  let options;
  try { options = parseArguments(); }
  catch (error) { console.error(...); console.log(HELP_TEXT); process.exit(1); }
  const absolutePath = path.resolve(process.cwd(), options.dirPath);
  if (!fs.existsSync(absolutePath)) { console.error(...); process.exit(1); }
  if (!fs.statSync(absolutePath).isDirectory()) { console.error(...); process.exit(1); }
  options.baseDir = absolutePath;
  ...
  const files = scanDirectory(absolutePath, 0, options);
  ... rendering ...
  process.exit(0);
};
```
`root` is what the file system holds at the resolved path: `none`
when nothing is there (`existsSync` is also false when the root
itself cannot be statted, since `existsSync` swallows the error).
Rendering only prints; the outcome carries the scanned records. -/

inductive MainOutcome where
  | helpShown
  | configError (msg : String)
  | rootNotFound
  | rootNotDirectory
  | completed (files : List FileRecord)
  deriving DecidableEq, Repr

def mainRun (args : List String) (root : Option FSEntry) : MainOutcome :=
  if isHelpRequested args then .helpShown
  else
    match parseArguments args with
    | .error msg => .configError msg
    | .ok opts =>
      match root with
      | none => .rootNotFound
      | some (.broken _) => .rootNotFound
      | some (.file _) => .rootNotDirectory
      | some (.dir _ readable entries) =>
        .completed (scanDirectory opts 0 [] readable entries)

def exitCode : MainOutcome → Nat
  | .helpShown => 0
  | .configError _ => 1
  | .rootNotFound => 1
  | .rootNotDirectory => 1
  | .completed _ => 0

/-- Whether the outcome involved running `scanDirectory` at all. -/
def scanPerformed : MainOutcome → Bool
  | .completed _ => true
  | _ => false

end DirScanner


namespace DirScanner

/-! ## C8: the statistics buckets partition the matched set -/

lemma countsTotal_append (a b : List (String × Nat)) :
    countsTotal (a ++ b) = countsTotal a + countsTotal b := by
  simp [countsTotal]

lemma bumpCount_map_fst (acc : List (String × Nat)) (key : String) :
    (bumpCount acc key).map Prod.fst = acc.map Prod.fst ∨
    (bumpCount acc key).map Prod.fst = acc.map Prod.fst ++ [key] := by
  unfold bumpCount
  by_cases h : acc.any fun p => p.1 = key
  · left
    simp only [h, if_pos]
    rw [List.map_map]
    refine List.map_congr_left fun p _ => ?_
    by_cases hp : p.1 = key <;> simp [hp]
  · right
    simp [h]

lemma bumpCount_nodup (acc : List (String × Nat)) (key : String)
    (h : (acc.map Prod.fst).Nodup) : ((bumpCount acc key).map Prod.fst).Nodup := by
  rcases bumpCount_map_fst acc key with heq | heq
  · rwa [heq]
  · rw [heq]
    have hk : key ∉ acc.map Prod.fst := by
      intro hmem
      rcases List.mem_map.mp hmem with ⟨p, hp, hpk⟩
      have : acc.any (fun p => p.1 = key) = true := by
        rw [List.any_eq_true]
        exact ⟨p, hp, by simp [hpk]⟩
      unfold bumpCount at heq
      simp only [this, if_pos] at heq
      have := congrArg List.length heq
      simp [List.length_map] at this
    simp [List.nodup_append, h, hk]

lemma countsTotal_bumpCount (acc : List (String × Nat)) (key : String)
    (h : (acc.map Prod.fst).Nodup) :
    countsTotal (bumpCount acc key) = countsTotal acc + 1 := by
  induction acc with
  | nil => simp [bumpCount, countsTotal]
  | cons p rest ih =>
    by_cases hp : p.1 = key
    · have hany : (p :: rest).any (fun q => q.1 = key) = true := by
        simp [List.any_cons, hp]
      have hk : key ∉ rest.map Prod.fst := by
        have := h
        simp only [List.map_cons, List.nodup_cons] at this
        rw [hp] at this
        exact this.1
      have hmap : rest.map (fun q => if q.1 = key then (q.1, q.2 + 1) else q) = rest := by
        have heq : rest.map (fun q => if q.1 = key then (q.1, q.2 + 1) else q)
            = rest.map id := by
          refine List.map_congr_left fun q hq => ?_
          have hq1 : q.1 ≠ key := fun hqk => hk (List.mem_map.mpr ⟨q, hq, hqk⟩)
          simp [hq1]
        simpa using heq
      unfold bumpCount
      simp only [hany, if_pos, List.map_cons, hp, if_pos]
      simp [countsTotal, hmap, hp]
      omega
    · have hrest : (rest.map Prod.fst).Nodup := by
        simp only [List.map_cons, List.nodup_cons] at h
        exact h.2
      have ihr := ih hrest
      by_cases hany : rest.any (fun q => q.1 = key) = true
      · have hany2 : (p :: rest).any (fun q => q.1 = key) = true := by
          simp [List.any_cons, hany]
        unfold bumpCount at ihr ⊢
        simp only [hany, hany2, if_pos, List.map_cons] at ihr ⊢
        simp only [hp, if_neg, ite_false]
        simp [countsTotal] at ihr ⊢
        omega
      · have hanyf : (rest.any fun q => q.1 = key) = false := by
          cases hh : rest.any fun q => q.1 = key with
          | false => rfl
          | true => exact absurd hh hany
        have hany2 : ((p :: rest).any fun q => q.1 = key) = false := by
          simp [List.any_cons, hp, hanyf]
        unfold bumpCount
        rw [hany2]
        simp [countsTotal]
        omega

lemma extensionCounts_foldl (files : List FileRecord) :
    ∀ acc : List (String × Nat), (acc.map Prod.fst).Nodup →
      countsTotal
        (files.foldl
          (fun acc f =>
            bumpCount acc (if f.extension = "" then "(no extension)" else f.extension))
          acc)
        = countsTotal acc + files.length ∧
      ((files.foldl
          (fun acc f =>
            bumpCount acc (if f.extension = "" then "(no extension)" else f.extension))
          acc).map Prod.fst).Nodup := by
  induction files with
  | nil => intro acc h; simpa using h
  | cons f rest ih =>
    intro acc h
    have hb := countsTotal_bumpCount acc
      (if f.extension = "" then "(no extension)" else f.extension) h
    have hn := bumpCount_nodup acc
      (if f.extension = "" then "(no extension)" else f.extension) h
    have := ih _ hn
    constructor
    · simp only [List.foldl_cons]
      rw [this.1, hb]
      simp [List.length_cons]
      omega
    · simpa using this.2

/-- C8: the four size-distribution buckets partition the matched
files (their counts sum to the total file count), and the extension
histogram's counts — with the "(no extension)" bucket for
extensionless files — also sum to the total file count. -/
theorem stats_buckets_partition (files : List FileRecord) :
    (sizeDistribution files).small + (sizeDistribution files).medium +
        (sizeDistribution files).large + (sizeDistribution files).huge
      = files.length ∧
    countsTotal (extensionCounts files) = files.length := by
  constructor
  · induction files with
    | nil => simp [sizeDistribution]
    | cons f rest ih =>
      simp only [sizeDistribution, List.filter_cons, ge_iff_le] at ih ⊢
      norm_num at ih ⊢
      rcases (by omega :
          f.size < 1024 ∨ (1024 ≤ f.size ∧ f.size < 1048576) ∨
            (1048576 ≤ f.size ∧ f.size < 1073741824) ∨
            1073741824 ≤ f.size) with h | ⟨h, h2⟩ | ⟨h, h2⟩ | h
      · have c1 : ¬(1024 ≤ f.size) := by omega
        have c2 : ¬(1048576 ≤ f.size) := by omega
        have c3 : ¬(1073741824 ≤ f.size) := by omega
        simp [h, c1, c2, c3]
        omega
      · have c1 : ¬(f.size < 1024) := by omega
        have c2 : ¬(1048576 ≤ f.size) := by omega
        have c3 : ¬(1073741824 ≤ f.size) := by omega
        have c4 : f.size < 1048576 := by omega
        simp [h, c1, c2, c3, c4]
        omega
      · have c1 : ¬(f.size < 1024) := by omega
        have c2 : ¬(f.size < 1048576) := by omega
        have c3 : ¬(1073741824 ≤ f.size) := by omega
        have c4 : f.size < 1073741824 := by omega
        have c5 : 1024 ≤ f.size := by omega
        simp [h, c1, c2, c3, c4, c5]
        omega
      · have c1 : ¬(f.size < 1024) := by omega
        have c2 : 1024 ≤ f.size := by omega
        have c3 : ¬(f.size < 1048576) := by omega
        have c4 : 1048576 ≤ f.size := by omega
        have c5 : ¬(f.size < 1073741824) := by omega
        simp [h, c1, c2, c3, c4, c5]
        omega
  · have := extensionCounts_foldl files [] (by simp)
    simpa [extensionCounts, countsTotal] using this.1

end DirScanner

namespace DirScanner

/-! ## C7: formatBytes selects the largest unit scaled below 1024 -/

lemma fbLoop_three (b : ℚ) :
    fbLoop b 3 = (b / 1024 ^ bytesUnitIndex b, bytesUnitIndex b) := by
  unfold bytesUnitIndex
  by_cases h0 : b < 1024
  · simp [fbLoop, not_le.mpr h0, h0]
  · have h0' : (1024 : ℚ) ≤ b := not_lt.mp h0
    by_cases h1 : b < 1024 ^ 2
    · have hdiv : b / 1024 < 1024 := by
        rw [div_lt_iff₀ (by norm_num : (0 : ℚ) < 1024)]
        calc b < 1024 ^ 2 := h1
        _ = 1024 * 1024 := by ring
      simp [fbLoop, h0', not_le.mpr hdiv, h0, h1, pow_one]
    · have h1' : (1024 : ℚ) ^ 2 ≤ b := not_lt.mp h1
      have hd1 : (1024 : ℚ) ≤ b / 1024 := by
        rw [le_div_iff₀ (by norm_num : (0 : ℚ) < 1024)]
        calc (1024 : ℚ) * 1024 = 1024 ^ 2 := by ring
        _ ≤ b := h1'
      by_cases h2 : b < 1024 ^ 3
      · have hdiv : b / 1024 / 1024 < 1024 := by
          rw [div_lt_iff₀ (by norm_num : (0 : ℚ) < 1024),
            div_lt_iff₀ (by norm_num : (0 : ℚ) < 1024)]
          calc b < 1024 ^ 3 := h2
          _ = 1024 * 1024 * 1024 := by ring
        have hsq : b / 1024 / 1024 = b / 1024 ^ 2 := by
          rw [div_div]; ring_nf
        have hdiv2 : b / 1024 ^ 2 < 1024 := hsq ▸ hdiv
        simp [fbLoop, h0', hd1, not_le.mpr hdiv2, h0, h1, h2, hsq]
      · have h2' : (1024 : ℚ) ^ 3 ≤ b := not_lt.mp h2
        have hd2 : (1024 : ℚ) ≤ b / 1024 / 1024 := by
          rw [le_div_iff₀ (by norm_num : (0 : ℚ) < 1024),
            le_div_iff₀ (by norm_num : (0 : ℚ) < 1024)]
          calc (1024 : ℚ) * 1024 * 1024 = 1024 ^ 3 := by ring
          _ ≤ b := h2'
        have : b / 1024 / 1024 / 1024 = b / 1024 ^ 3 := by
          rw [div_div, div_div]; ring_nf
        simp [fbLoop, h0', hd1, hd2, h0, h1, h2, this]

/-- C7: `formatBytes` converts a non-negative byte count to the
largest unit among B, KB, MB, GB whose scaled value is strictly
below 1024 (falling back to GB), rendered with exactly two decimal
places; in particular `formatBytes 0 = "0.00 B"`,
`formatBytes 1024 = "1.00 KB"` and `formatBytes 1536 = "1.50 KB"`. -/
theorem formatBytes_unit_selection :
    formatBytes 0 = "0.00 B" ∧ formatBytes 1024 = "1.00 KB" ∧
    formatBytes 1536 = "1.50 KB" ∧
    ∀ b : ℚ, 0 ≤ b →
      formatBytes b
          = toFixed2 (b / 1024 ^ bytesUnitIndex b) ++ " " ++
              ["B", "KB", "MB", "GB"].getD (bytesUnitIndex b) "" ∧
      (bytesUnitIndex b < 3 → b / 1024 ^ bytesUnitIndex b < 1024) ∧
      ∃ intPart : String,
        toFixed2 (b / 1024 ^ bytesUnitIndex b)
            = intPart ++ "." ++
                twoDigits ((⌊b / 1024 ^ bytesUnitIndex b * 100 + 1 / 2⌋).toNat % 100) ∧
        (twoDigits ((⌊b / 1024 ^ bytesUnitIndex b * 100 + 1 / 2⌋).toNat % 100)).length = 2 := by
  refine ⟨by with_unfolding_all rfl, by with_unfolding_all rfl,
    by with_unfolding_all rfl, fun b _ => ⟨?_, ?_, ?_⟩⟩
  · rw [formatBytes, fbLoop_three]
  · intro hidx
    unfold bytesUnitIndex at hidx ⊢
    split_ifs at hidx ⊢ with h0 h1 h2
    · simpa using h0
    · rw [pow_one, div_lt_iff₀ (by norm_num : (0 : ℚ) < 1024)]
      calc b < 1024 ^ 2 := h1
      _ = 1024 * 1024 := by ring
    · rw [div_lt_iff₀ (by positivity : (0 : ℚ) < 1024 ^ 2)]
      calc b < 1024 ^ 3 := h2
      _ = 1024 * 1024 ^ 2 := by ring
    · omega
  · exact ⟨toString ((⌊b / 1024 ^ bytesUnitIndex b * 100 + 1 / 2⌋).toNat / 100), rfl,
      by simp [twoDigits, String.length]⟩

theorem formatBytes_unit_selection_witness :
    formatBytes 2048
        = toFixed2 ((2048 : ℚ) / 1024 ^ bytesUnitIndex 2048) ++ " " ++
            ["B", "KB", "MB", "GB"].getD (bytesUnitIndex 2048) "" ∧
      (bytesUnitIndex 2048 < 3 → (2048 : ℚ) / 1024 ^ bytesUnitIndex 2048 < 1024) ∧
      ∃ intPart : String,
        toFixed2 ((2048 : ℚ) / 1024 ^ bytesUnitIndex 2048)
            = intPart ++ "." ++
                twoDigits ((⌊(2048 : ℚ) / 1024 ^ bytesUnitIndex 2048 * 100 + 1 / 2⌋).toNat % 100) ∧
        (twoDigits ((⌊(2048 : ℚ) / 1024 ^ bytesUnitIndex 2048 * 100 + 1 / 2⌋).toNat % 100)).length
          = 2 :=
  formatBytes_unit_selection.2.2.2 2048 (by norm_num)

end DirScanner

namespace DirScanner

/-! ## Size-filter parser: helper lemmas -/

lemma toUpper_of_isDigit (c : Char) (h : c.isDigit = true) : c.toUpper = c := by
  unfold Char.isDigit at h
  rw [Bool.and_eq_true, decide_eq_true_eq, decide_eq_true_eq] at h
  have h1 : 48 ≤ c.val.toNat := UInt32.le_toNat_of_le (by norm_num) h.1
  have h2 : c.val.toNat ≤ 57 := UInt32.toNat_le_of_le (by norm_num) h.2
  unfold Char.toUpper
  rw [if_neg]
  intro hc
  have : 97 ≤ c.toNat := hc.1
  unfold Char.toNat at this
  omega

lemma takeWhile_append_of_all {p : Char → Bool} (a r : List Char)
    (ha : ∀ c ∈ a, p c = true) (hr : ∀ c ∈ r.head?, p c = false) :
    (a ++ r).takeWhile p = a ∧ (a ++ r).dropWhile p = r := by
  induction a with
  | nil =>
    simp only [List.nil_append]
    cases r with
    | nil => simp
    | cons c rest =>
      have hc : p c = false := hr c (by simp)
      simp [List.takeWhile_cons, List.dropWhile_cons, hc]
  | cons x a ih =>
    have hx : p x = true := ha x (by simp)
    have ha' : ∀ c ∈ a, p c = true := fun c hc => ha c (by simp [hc])
    have := ih ha'
    simp [List.takeWhile_cons, List.dropWhile_cons, hx, this.1, this.2]

lemma numToken_head (num : List Char) (h : numToken num = true) :
    ∃ d ds, num = d :: ds ∧ d.isDigit = true := by
  cases num with
  | nil => simp [numToken] at h
  | cons d ds =>
    refine ⟨d, ds, rfl, ?_⟩
    by_contra hd
    have hd' : d.isDigit = false := by
      cases hh : d.isDigit with
      | false => rfl
      | true => exact absurd hh hd
    simp [numToken, List.takeWhile_cons, hd'] at h

lemma unitToken_shape (u : String) (h : unitToken u = true) :
    u.data = [] ∨
      ∃ c rest, u.data = c :: rest ∧ c.isDigit = false ∧ c ≠ '.' ∧ c ≠ '=' := by
  unfold unitToken at h
  have h' : u.data.map Char.toUpper ∈
      [([] : List Char), ['B'], ['K', 'B'], ['M', 'B'], ['G', 'B']] := by
    obtain ⟨a', ha', hb⟩ := List.contains_iff_exists_mem_beq.mp h
    rw [beq_iff_eq] at hb
    rwa [hb]
  cases hu : u.data with
  | nil => exact Or.inl rfl
  | cons c rest =>
    right
    rw [hu] at h'
    simp only [List.map_cons, List.mem_cons, List.mem_singleton] at h'
    have hup : c.toUpper = 'B' ∨ c.toUpper = 'K' ∨ c.toUpper = 'M' ∨ c.toUpper = 'G' := by
      rcases h' with h' | h' | h' | h' | h' <;> simp_all
    refine ⟨c, rest, rfl, ?_, ?_, ?_⟩
    · cases hd : c.isDigit with
      | false => rfl
      | true =>
        have := toUpper_of_isDigit c hd
        rw [this] at hup
        rcases hup with h' | h' | h' | h' <;> rw [h'] at hd <;> simp at hd
    · intro hc
      rw [hc] at hup
      have : ('.').toUpper = '.' := by decide
      rw [this] at hup
      rcases hup with h' | h' | h' | h' <;> simp at h'
    · intro hc
      rw [hc] at hup
      have : ('=').toUpper = '=' := by decide
      rw [this] at hup
      rcases hup with h' | h' | h' | h' <;> simp at h'

end DirScanner


namespace DirScanner

lemma numToken_parts (num : List Char) (h : numToken num = true) :
    (num.takeWhile Char.isDigit ≠ [] ∧
        ∀ c ∈ num.takeWhile Char.isDigit, c.isDigit = true) ∧
      (num.dropWhile Char.isDigit = [] ∨
        ∃ b, num.dropWhile Char.isDigit = '.' :: b ∧ b ≠ [] ∧
          ∀ c ∈ b, c.isDigit = true) := by
  unfold numToken at h
  rw [Bool.and_eq_true] at h
  obtain ⟨h1, h2⟩ := h
  refine ⟨⟨?_, fun c hc => List.mem_takeWhile_imp hc⟩, ?_⟩
  · intro hnil
    rw [hnil] at h1
    simp at h1
  · rw [Bool.or_eq_true] at h2
    rcases h2 with h2 | h2
    · exact Or.inl (by simpa using h2)
    · split at h2
      next b heq =>
        rw [Bool.and_eq_true, List.all_eq_true] at h2
        refine Or.inr ⟨b, heq, ?_, fun c hc => by simpa using h2.2 c hc⟩
        intro hb
        rw [hb] at h2
        simp at h2
      next => simp at h2

/-- All-digit lists are fixed by `takeWhile isDigit`. -/
lemma takeWhile_digits_self (a : List Char) (ha : ∀ c ∈ a, c.isDigit = true) :
    a.takeWhile Char.isDigit = a ∧ a.dropWhile Char.isDigit = [] := by
  have := takeWhile_append_of_all (p := Char.isDigit) a [] ha (by simp)
  simpa using this

/-- The number group consumes exactly a wellformed number token when
what follows cannot extend it. -/
lemma parseNumber_complete (num rest : List Char) (h : numToken num = true)
    (hrest : ∀ c ∈ rest.head?, c.isDigit = false ∧ c ≠ '.') :
    parseNumber (num ++ rest) = some (numValue num, rest) := by
  obtain ⟨⟨hne, hdig⟩, hsplit⟩ := numToken_parts num h
  have hsum := List.takeWhile_append_dropWhile (p := Char.isDigit) (l := num)
  rcases hsplit with hempty | ⟨b, hb, hbne, hbdig⟩
  · -- num is a pure digit run
    have hnum : num = num.takeWhile Char.isDigit := by
      conv_lhs => rw [← hsum]
      rw [hempty, List.append_nil]
    have hspan := takeWhile_append_of_all (p := Char.isDigit)
      (num.takeWhile Char.isDigit) rest hdig (fun c hc => (hrest c hc).1)
    have hval : numValue num = (digitsToNat (num.takeWhile Char.isDigit) : ℚ) := by
      unfold numValue
      rw [hempty]
    rw [show num ++ rest = num.takeWhile Char.isDigit ++ rest from by rw [← hnum]]
    simp only [parseNumber]
    rw [hspan.1, hspan.2, if_neg (by simpa using hne), hval]
    split
    next =>
      exact ((hrest '.' (by simp)).2 rfl).elim
    next => rfl
  · -- num = digits ++ '.' :: fracdigits
    have hnum : num = num.takeWhile Char.isDigit ++ '.' :: b := by
      conv_lhs => rw [← hsum]
      rw [hb]
    have hspanfrac := takeWhile_append_of_all (p := Char.isDigit) b rest hbdig
      (fun c hc => (hrest c hc).1)
    have hdot : Char.isDigit '.' = false := by decide
    have hspan := takeWhile_append_of_all (p := Char.isDigit)
      (num.takeWhile Char.isDigit) ('.' :: (b ++ rest)) hdig
      (fun c hc => by
        simp only [List.head?_cons, Option.mem_def, Option.some.injEq] at hc
        rw [← hc]
        exact hdot)
    have hval : numValue num
        = (digitsToNat (num.takeWhile Char.isDigit) : ℚ)
            + (digitsToNat b : ℚ) / (10 : ℚ) ^ b.length := by
      unfold numValue
      rw [hb]
      simp
    rw [show num ++ rest = num.takeWhile Char.isDigit ++ '.' :: (b ++ rest) from by
      conv_lhs => rw [hnum]
      simp]
    simp only [parseNumber]
    rw [hspan.1, hspan.2, if_neg (by simpa using hne)]
    simp only [hspanfrac.1, hspanfrac.2]
    rw [if_neg (by simpa using hbne), hval]

end DirScanner

namespace DirScanner

lemma parseUnitEnd_complete (u : String) (h : unitToken u = true) :
    parseUnitEnd u.data = some (unitMultiplier u) := by
  have h' : u.data.map Char.toUpper ∈
      [([] : List Char), ['B'], ['K', 'B'], ['M', 'B'], ['G', 'B']] := by
    obtain ⟨a', ha', hb⟩ := List.contains_iff_exists_mem_beq.mp h
    rw [beq_iff_eq] at hb
    rwa [hb]
  simp only [List.mem_cons, List.mem_singleton, List.not_mem_nil, or_false] at h'
  rcases h' with hm | hm | hm | hm | hm
  · have hdn : u.data = [] := by simpa using hm
    simp [parseUnitEnd, unitMultiplier, hm, hdn]
  · have hdn : u.data ≠ [] := by intro h0; rw [h0] at hm; simp at hm
    simp [parseUnitEnd, unitMultiplier, hm, hdn]
  · have hdn : u.data ≠ [] := by intro h0; rw [h0] at hm; simp at hm
    simp [parseUnitEnd, unitMultiplier, hm, hdn]
  · have hdn : u.data ≠ [] := by intro h0; rw [h0] at hm; simp at hm
    simp [parseUnitEnd, unitMultiplier, hm, hdn]
  · have hdn : u.data ≠ [] := by intro h0; rw [h0] at hm; simp at hm
    simp [parseUnitEnd, unitMultiplier, hm, hdn]

lemma parseAfterOp_complete (op : String) (num : List Char) (u : String)
    (hn : numToken num = true) (hu : unitToken u = true) :
    parseAfterOp op (num ++ u.data) = some ⟨op, numValue num * unitMultiplier u⟩ := by
  have hhead : ∀ c ∈ u.data.head?, c.isDigit = false ∧ c ≠ '.' := by
    rcases unitToken_shape u hu with hnil | ⟨c, rest, hcons, hdig, hdot, _⟩
    · rw [hnil]; simp
    · rw [hcons]
      intro x hx
      simp only [List.head?_cons, Option.mem_def, Option.some.injEq] at hx
      rw [← hx]
      exact ⟨hdig, hdot⟩
  simp only [parseAfterOp]
  rw [parseNumber_complete num u.data hn hhead]
  simp [parseUnitEnd_complete u hu]

lemma parseAfterOp_eq_head (op : String) (rest : List Char) :
    parseAfterOp op ('=' :: rest) = none := by
  have h : Char.isDigit '=' = false := by decide
  simp [parseAfterOp, parseNumber, List.takeWhile_cons, h]

lemma parseSizeFilter_two (s : String) (c : Char) (rest : List Char)
    (hs : s.data = c :: '=' :: rest) (hc : c = '>' ∨ c = '<' ∨ c = '=') :
    parseSizeFilter s
      = (parseAfterOp (String.mk [c, '=']) rest <|>
          parseAfterOp (String.mk [c]) ('=' :: rest)) := by
  unfold parseSizeFilter
  rw [hs]
  split
  next x c2 r2 heq =>
    rw [List.cons.injEq, List.cons.injEq] at heq
    obtain ⟨h1, _, h3⟩ := heq
    subst h1
    subst h3
    rw [if_pos hc]
  next x c2 r2 hx heq =>
    rw [List.cons.injEq] at heq
    exact (hx rest heq.2.symm).elim
  next x heq => simp at heq

lemma parseSizeFilter_one (s : String) (c : Char) (tl : List Char)
    (hs : s.data = c :: tl) (hc : c = '>' ∨ c = '<' ∨ c = '=')
    (htl : ∀ d tl2, tl = d :: tl2 → d ≠ '=') :
    parseSizeFilter s = parseAfterOp (String.mk [c]) tl := by
  unfold parseSizeFilter
  rw [hs]
  split
  next x c2 r2 heq =>
    rw [List.cons.injEq] at heq
    exact absurd rfl (htl '=' r2 heq.2)
  next x c2 r2 hx heq =>
    rw [List.cons.injEq] at heq
    obtain ⟨h1, h2⟩ := heq
    subst h1
    subst h2
    rw [if_pos hc]
  next x heq => simp at heq

lemma parseSizeFilter_complete (op : String) (num : List Char) (u : String)
    (hop : op ∈ sizeOps) (hn : numToken num = true) (hu : unitToken u = true) :
    parseSizeFilter (op ++ String.mk num ++ u)
      = some ⟨op, numValue num * unitMultiplier u⟩ := by
  obtain ⟨d, ds, hnum, hd⟩ := numToken_head num hn
  have hdne : d ≠ '=' := by
    intro hde
    rw [hde] at hd
    exact absurd hd (by decide)
  have hafter := parseAfterOp_complete op num u hn hu
  have htl : ∀ d2 tl2, num ++ u.data = d2 :: tl2 → d2 ≠ '=' := by
    intro d2 tl2 hdt
    rw [hnum] at hdt
    rw [List.cons_append, List.cons.injEq] at hdt
    rw [← hdt.1]
    exact hdne
  fin_cases hop
  · rw [parseSizeFilter_one _ '>' (num ++ u.data) (by simp [hnum]) (by left; rfl) htl]
    exact parseAfterOp_complete ">" num u hn hu
  · rw [parseSizeFilter_one _ '<' (num ++ u.data) (by simp [hnum]) (by right; left; rfl) htl]
    exact parseAfterOp_complete "<" num u hn hu
  · rw [parseSizeFilter_one _ '=' (num ++ u.data) (by simp [hnum]) (by right; right; rfl) htl]
    exact parseAfterOp_complete "=" num u hn hu
  · rw [parseSizeFilter_two _ '>' (num ++ u.data) (by simp) (by left; rfl)]
    rw [show String.mk ['>', '='] = ">=" from rfl]
    rw [parseAfterOp_complete ">=" num u hn hu]
    rfl
  · rw [parseSizeFilter_two _ '<' (num ++ u.data) (by simp) (by right; left; rfl)]
    rw [show String.mk ['<', '='] = "<=" from rfl]
    rw [parseAfterOp_complete "<=" num u hn hu]
    rfl
  · rw [parseSizeFilter_two _ '=' (num ++ u.data) (by simp) (by right; right; rfl)]
    rw [show String.mk ['=', '='] = "==" from rfl]
    rw [parseAfterOp_complete "==" num u hn hu]
    rfl

end DirScanner

namespace DirScanner

lemma parseNumber_sound (cs : List Char) (q : ℚ) (r : List Char)
    (h : parseNumber cs = some (q, r)) :
    ∃ num, cs = num ++ r ∧ numToken num = true ∧ q = numValue num := by
  have hsum := List.takeWhile_append_dropWhile (p := Char.isDigit) (l := cs)
  have hAdig : ∀ c ∈ cs.takeWhile Char.isDigit, c.isDigit = true :=
    fun c hc => List.mem_takeWhile_imp hc
  simp only [parseNumber] at h
  split at h
  next hAe => exact absurd h (by simp)
  next hAe =>
    have hAne : cs.takeWhile Char.isDigit ≠ [] := by simpa using hAe
    have hAself := takeWhile_digits_self (cs.takeWhile Char.isDigit) hAdig
    split at h
    next r2 heqR =>
      have hBdig : ∀ c ∈ r2.takeWhile Char.isDigit, c.isDigit = true :=
        fun c hc => List.mem_takeWhile_imp hc
      split at h
      next hBe =>
        rw [Option.some.injEq, Prod.mk.injEq] at h
        refine ⟨cs.takeWhile Char.isDigit, ?_, ?_, ?_⟩
        · rw [← h.2, hsum]
        · unfold numToken
          simp [hAself.1, hAself.2, hAne]
        · rw [← h.1]
          unfold numValue
          rw [hAself.1, hAself.2]
      next hBe =>
        rw [Option.some.injEq, Prod.mk.injEq] at h
        have hBne : r2.takeWhile Char.isDigit ≠ [] := by simpa using hBe
        have hr2 := List.takeWhile_append_dropWhile (p := Char.isDigit) (l := r2)
        have hspan := takeWhile_append_of_all (p := Char.isDigit)
          (cs.takeWhile Char.isDigit) ('.' :: r2.takeWhile Char.isDigit) hAdig
          (fun c hc => by
            simp only [List.head?_cons, Option.mem_def, Option.some.injEq] at hc
            rw [← hc]
            decide)
        refine ⟨cs.takeWhile Char.isDigit ++ '.' :: r2.takeWhile Char.isDigit, ?_, ?_, ?_⟩
        · rw [← h.2]
          conv_lhs => rw [← hsum, heqR]
          conv_lhs => rw [← hr2]
          simp
        · unfold numToken
          rw [hspan.1, hspan.2]
          simp only [Bool.and_eq_true, Bool.not_eq_true', Bool.or_eq_true]
          refine ⟨by simpa using hAne, Or.inr ?_⟩
          simp only [Bool.and_eq_true, Bool.not_eq_true', List.all_eq_true]
          exact ⟨by simpa using hBne, fun c hc => by simpa using hBdig c hc⟩
        · rw [← h.1]
          unfold numValue
          rw [hspan.1, hspan.2]
          simp
    next hother =>
      rw [Option.some.injEq, Prod.mk.injEq] at h
      refine ⟨cs.takeWhile Char.isDigit, ?_, ?_, ?_⟩
      · rw [← h.2, hsum]
      · unfold numToken
        simp [hAself.1, hAself.2, hAne]
      · rw [← h.1]
        unfold numValue
        rw [hAself.1, hAself.2]

end DirScanner

namespace DirScanner

lemma parseUnitEnd_sound (cs : List Char) (m : ℚ)
    (h : parseUnitEnd cs = some m) :
    unitToken (String.mk cs) = true ∧ m = unitMultiplier (String.mk cs) := by
  have hdata : (String.mk cs).data = cs := rfl
  simp only [parseUnitEnd] at h
  by_cases h1 : cs.map Char.toUpper = []
  · rw [if_pos h1] at h
    rw [Option.some.injEq] at h
    constructor
    · simp [unitToken, hdata, h1]
    · simp [unitMultiplier, hdata, h1, ← h]
  · rw [if_neg h1] at h
    by_cases h2 : cs.map Char.toUpper = ['B']
    · rw [if_pos h2] at h
      rw [Option.some.injEq] at h
      exact ⟨by simp [unitToken, hdata, h2], by simp [unitMultiplier, hdata, h2, ← h]⟩
    · rw [if_neg h2] at h
      by_cases h3 : cs.map Char.toUpper = ['K', 'B']
      · rw [if_pos h3] at h
        rw [Option.some.injEq] at h
        exact ⟨by simp [unitToken, hdata, h3], by simp [unitMultiplier, hdata, h3, ← h]⟩
      · rw [if_neg h3] at h
        by_cases h4 : cs.map Char.toUpper = ['M', 'B']
        · rw [if_pos h4] at h
          rw [Option.some.injEq] at h
          exact ⟨by simp [unitToken, hdata, h4], by simp [unitMultiplier, hdata, h4, ← h]⟩
        · rw [if_neg h4] at h
          by_cases h5 : cs.map Char.toUpper = ['G', 'B']
          · rw [if_pos h5] at h
            rw [Option.some.injEq] at h
            exact ⟨by simp [unitToken, hdata, h5], by simp [unitMultiplier, hdata, h5, ← h]⟩
          · rw [if_neg h5] at h
            exact absurd h (by simp)

lemma parseAfterOp_sound (op : String) (rest : List Char) (f : SizeFilter)
    (h : parseAfterOp op rest = some f) :
    ∃ num u, rest = num ++ String.data u ∧ numToken num = true ∧ unitToken u = true ∧
      f = ⟨op, numValue num * unitMultiplier u⟩ := by
  simp only [parseAfterOp] at h
  rw [Option.bind_eq_some] at h
  obtain ⟨⟨q, rem⟩, hq, hmap⟩ := h
  rw [Option.map_eq_some'] at hmap
  obtain ⟨mval, hm, hf⟩ := hmap
  obtain ⟨num, hcs, hnt, hqv⟩ := parseNumber_sound rest q rem hq
  obtain ⟨hut, hmm⟩ := parseUnitEnd_sound rem mval hm
  refine ⟨num, String.mk rem, hcs, hnt, hut, ?_⟩
  rw [← hf, hqv, hmm]

lemma parseSizeFilter_sound (s : String) (f : SizeFilter)
    (h : parseSizeFilter s = some f) :
    f.operator ∈ sizeOps ∧
      ∃ num u, s.data = f.operator.data ++ num ++ String.data u ∧
        numToken num = true ∧ unitToken u = true ∧
        f.bytes = numValue num * unitMultiplier u := by
  unfold parseSizeFilter at h
  split at h
  next c rest heq =>
    split at h
    next hc =>
      cases hfirst : parseAfterOp (String.mk [c, '=']) rest with
      | none =>
        rw [hfirst] at h
        simp only [Option.none_orElse] at h
        rw [parseAfterOp_eq_head] at h
        exact absurd h (by simp)
      | some f1 =>
        rw [hfirst] at h
        simp only [Option.some_orElse, Option.some.injEq] at h
        subst h
        obtain ⟨num, u, hrest, hnt, hut, hf⟩ :=
          parseAfterOp_sound (String.mk [c, '=']) rest f1 hfirst
        rw [hf]
        constructor
        · rcases hc with hc | hc | hc <;> rw [hc] <;> simp [sizeOps]
        · refine ⟨num, u, ?_, hnt, hut, rfl⟩
          rw [heq, hrest]
          rfl
    next hc => exact absurd h (by simp)
  next c rest heq hnm =>
    split at h
    next hc =>
      obtain ⟨num, u, hrest, hnt, hut, hf⟩ :=
        parseAfterOp_sound (String.mk [c]) rest f h
      rw [hf]
      constructor
      · rcases hc with hc | hc | hc <;> rw [hc] <;> simp [sizeOps]
      · refine ⟨num, u, ?_, hnt, hut, rfl⟩
        rw [hnm, hrest]
        rfl
    next hc => exact absurd h (by simp)
  next heq => exact absurd h (by simp)

end DirScanner

namespace DirScanner

lemma matchesSizeFilter_eqeq (b : ℚ) (sz : Nat) :
    matchesSizeFilter sz (some ⟨"==", b⟩) = true := by
  with_unfolding_all rfl

/-- C4 counterexample: the claim says the parser accepts only the
operators `>`, `<`, `=`, `>=`, `<=` and fails on every other string,
but `"==100"` — whose operator `==` is outside that set — parses
successfully. -/
theorem sizeFilter_op_set_counterexample :
    parseSizeFilter "==100" = some ⟨"==", 100⟩ ∧
    "==" ∉ ([">", "<", "=", ">=", "<="] : List String) :=
  ⟨by with_unfolding_all rfl, by decide⟩

/-- C4 (amended): the size-filter parser maps a string
`<operator><number>[<unit>]` with operator in
`{>, <, =, >=, <=, ==}` (the regex `[><=]=?` also accepts `==`),
unit in `{B, KB, MB, GB}` case-insensitive defaulting to bytes, to
`{operator, bytes}` with 1024-based multipliers, and fails for any
string not of that shape; in particular `">1MB"` parses to
`{>, 1048576}`, `"<=500"` to `{<=, 500}`, and `"bogus"` fails. -/
theorem parseSizeFilter_grammar :
    parseSizeFilter ">1MB" = some ⟨">", 1048576⟩ ∧
    parseSizeFilter "<=500" = some ⟨"<=", 500⟩ ∧
    parseSizeFilter "bogus" = none ∧
    (∀ op num u, op ∈ sizeOps → numToken num = true → unitToken u = true →
      parseSizeFilter (op ++ String.mk num ++ u)
        = some ⟨op, numValue num * unitMultiplier u⟩) ∧
    (∀ s f, parseSizeFilter s = some f →
      f.operator ∈ sizeOps ∧
        ∃ num u, s.data = f.operator.data ++ num ++ String.data u ∧
          numToken num = true ∧ unitToken u = true ∧
          f.bytes = numValue num * unitMultiplier u) :=
  ⟨by with_unfolding_all rfl, by with_unfolding_all rfl, by with_unfolding_all rfl,
    parseSizeFilter_complete, parseSizeFilter_sound⟩

theorem parseSizeFilter_grammar_witness :
    parseSizeFilter (">=" ++ String.mk ['1', '2'] ++ "kb")
      = some ⟨">=", numValue ['1', '2'] * unitMultiplier "kb"⟩ :=
  parseSizeFilter_grammar.2.2.2.1 ">=" ['1', '2'] "kb" (by decide) (by decide) (by decide)

/-- C10: every string of the form `==<number>[<unit>]` is accepted
by the size-filter parser (rather than rejected), with the operator
`==` that is outside the documented set; the resulting size test
falls into the `switch` default and returns true for every file
size, so such a filter silently passes all files. -/
theorem sizeFilter_eqeq_passes_all :
    (∀ num u, numToken num = true → unitToken u = true →
      parseSizeFilter ("==" ++ String.mk num ++ u)
          = some ⟨"==", numValue num * unitMultiplier u⟩ ∧
      ∀ sz : Nat,
        matchesSizeFilter sz (some ⟨"==", numValue num * unitMultiplier u⟩) = true) ∧
    parseSizeFilter "==100" = some ⟨"==", 100⟩ ∧
    "==" ∉ ([">", "<", "=", ">=", "<="] : List String) ∧
    ∀ sz : Nat, matchesSizeFilter sz (some ⟨"==", 100⟩) = true :=
  ⟨fun num u hn hu =>
    ⟨parseSizeFilter_complete "==" num u (by decide) hn hu,
      fun sz => matchesSizeFilter_eqeq _ sz⟩,
    by with_unfolding_all rfl, by decide, fun sz => matchesSizeFilter_eqeq 100 sz⟩

theorem sizeFilter_eqeq_passes_all_witness :
    parseSizeFilter ("==" ++ String.mk ['1', '0', '0'] ++ "")
        = some ⟨"==", numValue ['1', '0', '0'] * unitMultiplier ""⟩ ∧
    ∀ sz : Nat,
      matchesSizeFilter sz
        (some ⟨"==", numValue ['1', '0', '0'] * unitMultiplier ""⟩) = true :=
  sizeFilter_eqeq_passes_all.1 ['1', '0', '0'] "" (by decide) (by decide)

end DirScanner

namespace DirScanner

/-- C3 counterexample: the claim says the glob is compiled with all
other regex metacharacters escaped and the match anchored at both
ends of the filename, which would make pattern `config.*` reject
`my-configXjson`; the code's matcher accepts it (the pattern's `.`
is an unescaped wildcard and `regex.test` is a substring search). -/
theorem namePattern_escape_anchor_counterexample :
    matchesNamePattern "my-configXjson" (some "config.*") = true ∧
    specNameMatch "my-configXjson" (some "config.*") = false :=
  ⟨by with_unfolding_all rfl, by with_unfolding_all rfl⟩

/-- C3 (amended): the name-pattern test is a case-insensitive
*unanchored* regex search over the filename in which `*` matches
zero or more characters and `?` exactly one, while the other regex
metacharacters are *not* escaped (in particular a `.` in the pattern
matches any single character); a null pattern matches every
filename.  The claimed examples still hold: `*.test.*` matches
`app.test.js` and not `app.js`, and `config.*` matches
`config.json`. -/
theorem namePattern_search_semantics :
    matchesNamePattern "app.test.js" (some "*.test.*") = true ∧
    matchesNamePattern "app.js" (some "*.test.*") = false ∧
    matchesNamePattern "config.json" (some "config.*") = true ∧
    (∀ f : String, matchesNamePattern f none = true) ∧
    (∀ (p : String) (pre : List Char) (f : String),
      matchesNamePattern f (some p) = true →
      matchesNamePattern (String.mk (pre ++ f.data)) (some p) = true) ∧
    matchesNamePattern "configXjson" (some "config.*") = true ∧
    matchesNamePattern "CONFIG.JSON" (some "config.*") = true := by
  refine ⟨by with_unfolding_all rfl, by with_unfolding_all rfl, by with_unfolding_all rfl,
    fun f => rfl, ?_, by with_unfolding_all rfl, by with_unfolding_all rfl⟩
  intro p pre f h
  simp only [matchesNamePattern, regexSearch, List.any_eq_true] at h ⊢
  obtain ⟨i, hi, hm⟩ := h
  refine ⟨pre.length + i, ?_, ?_⟩
  · rw [List.mem_range] at hi ⊢
    rw [List.length_append]
    omega
  · have hdrop : (pre ++ f.data).drop (pre.length + i) = f.data.drop i := by
      rw [List.drop_append]
    rw [hdrop]
    exact hm

theorem namePattern_search_semantics_witness :
    matchesNamePattern (String.mk ("my-".data ++ ("config.json" : String).data))
      (some "config.*") = true :=
  namePattern_search_semantics.2.2.2.2.1 "config.*" "my-".data "config.json"
    (by with_unfolding_all rfl)

end DirScanner

namespace DirScanner

lemma containsSearchTextR_fst (content searchText : Option String) :
    (containsSearchTextR content searchText).1 = containsSearchText content searchText := by
  cases searchText <;> cases content <;> rfl

/-- C5: when `searchText` is set, a failed content read (content
`none`) makes the content test a non-match: the file is excluded and
the scan simply continues with the remaining entries, no error being
raised (the embedding is total); and the content read happens only
after the extension, name and size tests have all passed — the
instrumented pipeline records a read only in that case, and never
when `searchText` is absent. -/
theorem content_search_last_and_fallible :
    ∀ (opts : ScanOptions) (m : FileMeta),
      (applyFiltersR opts m).1 = passesFilters opts m ∧
      ((applyFiltersR opts m).2 = true →
        matchesExtension m.name opts.extensions = true ∧
        matchesNamePattern m.name opts.namePattern = true ∧
        matchesSizeFilter m.size opts.sizeFilter = true ∧
        opts.searchText.isSome = true) ∧
      (opts.searchText = none → (applyFiltersR opts m).2 = false) ∧
      (∀ t, opts.searchText = some t → m.content = none →
        passesFilters opts m = false) ∧
      (∀ t rest currentDepth pfx, opts.searchText = some t → m.content = none →
        scanLoop opts currentDepth pfx (FSEntry.file m :: rest)
          = scanLoop opts currentDepth pfx rest) := by
  intro opts m
  refine ⟨?_, ?_, ?_, ?_, ?_⟩
  · unfold applyFiltersR passesFilters
    by_cases h1 : matchesExtension m.name opts.extensions
    · by_cases h2 : matchesNamePattern m.name opts.namePattern
      · by_cases h3 : matchesSizeFilter m.size opts.sizeFilter
        · simp [h1, h2, h3, containsSearchTextR_fst]
        · simp [h1, h2, h3]
      · simp [h1, h2]
    · simp [h1]
  · intro hread
    unfold applyFiltersR at hread
    by_cases h1 : matchesExtension m.name opts.extensions
    · by_cases h2 : matchesNamePattern m.name opts.namePattern
      · by_cases h3 : matchesSizeFilter m.size opts.sizeFilter
        · refine ⟨h1, h2, h3, ?_⟩
          rw [if_pos h1, if_pos h2, if_pos h3] at hread
          cases hst : opts.searchText with
          | none => rw [hst] at hread; simp [containsSearchTextR] at hread
          | some t => rfl
        · rw [if_pos h1, if_pos h2, if_neg h3] at hread
          simp at hread
      · rw [if_pos h1, if_neg h2] at hread
        simp at hread
    · rw [if_neg h1] at hread
      simp at hread
  · intro hst
    unfold applyFiltersR
    by_cases h1 : matchesExtension m.name opts.extensions
    · by_cases h2 : matchesNamePattern m.name opts.namePattern
      · by_cases h3 : matchesSizeFilter m.size opts.sizeFilter
        · rw [if_pos h1, if_pos h2, if_pos h3, hst]
          rfl
        · simp [h1, h2, h3]
      · simp [h1, h2]
    · simp [h1]
  · intro t hst hcontent
    unfold passesFilters
    rw [hst, hcontent]
    simp [containsSearchText]
  · intro t rest currentDepth pfx hst hcontent
    have hpass : passesFilters opts m = false := by
      unfold passesFilters
      rw [hst, hcontent]
      simp [containsSearchText]
    rw [scanLoop]
    rw [hpass]
    simp

theorem content_search_last_and_fallible_witness :
    scanLoop ⟨"", none, [], none, none, some "error", false, false, false, false⟩ 0 []
        [FSEntry.file ⟨"a.bin", 9, none, 0, 0⟩]
      = scanLoop ⟨"", none, [], none, none, some "error", false, false, false, false⟩ 0 []
          [] :=
  (content_search_last_and_fallible
      ⟨"", none, [], none, none, some "error", false, false, false, false⟩
      ⟨"a.bin", 9, none, 0, 0⟩).2.2.2.2 "error" [] 0 [] rfl rfl

end DirScanner

namespace DirScanner

/-- C6 counterexample: the claim says a stat failure skips only that
entry and the remaining entries of the same directory still
contribute records; in the code the `try` wraps the whole entry
loop, so the directory `[broken, good.txt]` scans to no records even
though `good.txt` alone would produce one. -/
theorem stat_failure_counterexample :
    scanDirectory defaultOptions 0 [] true
        [FSEntry.broken "x", FSEntry.file ⟨"good.txt", 10, some "g", 0, 0⟩] = [] ∧
    scanDirectory defaultOptions 0 [] true
        [FSEntry.file ⟨"good.txt", 10, some "g", 0, 0⟩]
      = [mkFileRecord [] ⟨"good.txt", 10, some "g", 0, 0⟩] := by
  have e1 : passesFilters ⟨"", none, [], none, none, none, false, false, false, false⟩
      ⟨"good.txt", 10, some "g", 0, 0⟩ = true := by with_unfolding_all rfl
  constructor
  · simp [scanDirectory, scanLoop, depthExceeded, defaultOptions]
  · simp [scanDirectory, scanLoop, depthExceeded, defaultOptions, e1]

/-- C6 (amended): a stat failure on a directory entry is never fatal
to the scan, but it does not skip just that entry: the entry
produces no record and the remaining entries of the *same* directory
are abandoned (the loop aborts into the warning handler), while the
rest of the scan proceeds as if that directory had ended there — in
particular a subdirectory whose listing hits a broken first entry
contributes exactly what an empty directory would, and entries of
other directories still contribute records. -/
theorem stat_failure_aborts_directory :
    (∀ (opts : ScanOptions) (currentDepth : Nat) (pfx : List String) (nm : String)
        (rest : List FSEntry),
      scanLoop opts currentDepth pfx (FSEntry.broken nm :: rest) = []) ∧
    (∀ (opts : ScanOptions) (currentDepth : Nat) (pfx : List String)
        (l1 : List FSEntry) (n : String) (r : Bool) (nm : String)
        (subs l2 : List FSEntry),
      scanLoop opts currentDepth pfx
          (l1 ++ FSEntry.dir n r (FSEntry.broken nm :: subs) :: l2)
        = scanLoop opts currentDepth pfx (l1 ++ FSEntry.dir n r [] :: l2)) := by
  constructor
  · intro opts currentDepth pfx nm rest
    simp [scanLoop]
  · intro opts currentDepth pfx l1 n r nm subs l2
    induction l1 generalizing currentDepth pfx with
    | nil =>
      simp only [List.nil_append]
      rw [scanLoop, scanLoop]
      rw [scanLoop]
      split
      · rfl
      · split
        · rw [scanLoop]
        · rfl
    | cons e l1 ih =>
      cases e with
      | broken nm2 => simp [scanLoop]
      | file m =>
        simp only [List.cons_append]
        rw [scanLoop, scanLoop]
        rw [ih]
      | dir n2 r2 subs2 =>
        simp only [List.cons_append]
        rw [scanLoop, scanLoop]
        rw [ih]

end DirScanner

namespace DirScanner

lemma filterMap_some_eq_map {α β : Type} (l : List α) (g : α → β) :
    l.filterMap (fun x => some (g x)) = l.map g := by
  induction l with
  | nil => rfl
  | cons x l ih => simp [List.filterMap_cons, ih]

lemma scanLoop_eq_filterMap (opts : ScanOptions) (currentDepth : Nat)
    (pfx : List String) (es : List FSEntry) :
    scanLoop opts currentDepth pfx es
      = (enumLoop opts.depth currentDepth pfx es).filterMap
          (fun pm => if passesFilters opts pm.2 then some (mkFileRecord pm.1 pm.2) else none) := by
  match es with
  | [] => simp [scanLoop, enumLoop]
  | .broken nm :: rest => simp [scanLoop, enumLoop]
  | .file m :: rest =>
    rw [scanLoop, enumLoop, List.filterMap_cons]
    rw [scanLoop_eq_filterMap opts currentDepth pfx rest]
    by_cases hp : passesFilters opts m <;> simp [hp]
  | .dir n r subs :: rest =>
    rw [scanLoop, enumLoop, List.filterMap_append]
    rw [scanLoop_eq_filterMap opts currentDepth pfx rest]
    congr 1
    split
    · simp
    · split
      · exact scanLoop_eq_filterMap opts (currentDepth + 1) (pfx ++ [n]) subs
      · simp

lemma scanDirectory_eq_filterMap (opts : ScanOptions) (currentDepth : Nat)
    (pfx : List String) (readable : Bool) (entries : List FSEntry) :
    scanDirectory opts currentDepth pfx readable entries
      = (enumDirectory opts.depth currentDepth pfx readable entries).filterMap
          (fun pm => if passesFilters opts pm.2 then some (mkFileRecord pm.1 pm.2) else none) := by
  unfold scanDirectory enumDirectory
  by_cases hd : depthExceeded currentDepth opts.depth
  · simp [hd]
  · cases readable with
    | true => simp [hd, scanLoop_eq_filterMap]
    | false => simp [hd]

lemma passesFilters_disabled (dirPath : String) (depth : Option ℚ)
    (tree stats json csv : Bool) (m : FileMeta) :
    passesFilters ⟨dirPath, depth, [], none, none, none, tree, stats, json, csv⟩ m = true :=
  rfl

lemma enumLoop_eq_allFilesLE (depth : Option ℚ) (currentDepth : Nat)
    (pfx : List String) (es : List FSEntry) (h : cleanEntries es = true) :
    enumLoop depth currentDepth pfx es = allFilesLE depth currentDepth pfx es := by
  match es with
  | [] => rw [enumLoop, allFilesLE]
  | .broken nm :: rest => simp [cleanEntries] at h
  | .file m :: rest =>
    rw [enumLoop, allFilesLE]
    rw [enumLoop_eq_allFilesLE depth currentDepth pfx rest (by simpa [cleanEntries] using h)]
  | .dir n r subs :: rest =>
    rw [cleanEntries, Bool.and_eq_true, Bool.and_eq_true] at h
    obtain ⟨⟨hr, hsubs⟩, hrest⟩ := h
    rw [enumLoop, allFilesLE]
    rw [enumLoop_eq_allFilesLE depth currentDepth pfx rest hrest]
    rw [hr]
    congr 1
    split
    · rfl
    · simp only [if_true]
      exact enumLoop_eq_allFilesLE depth (currentDepth + 1) (pfx ++ [n]) subs hsubs

/-- C1: a `FileRecord` is appended for an enumerated regular file iff
the file passes all four sub-filters — the traversal equals the
unfiltered enumeration filtered by the pipeline conjunction — where
each sub-filter passes when its configuration field is absent (empty
extension list, null pattern, null size filter, null search text);
with all four filters disabled the result is exactly the enumerated
file set within the depth bound, one record per file. -/
theorem scan_filter_conjunction :
    (∀ (opts : ScanOptions) (currentDepth : Nat) (pfx : List String) (readable : Bool)
        (entries : List FSEntry),
      scanDirectory opts currentDepth pfx readable entries
        = (enumDirectory opts.depth currentDepth pfx readable entries).filterMap
            (fun pm =>
              if passesFilters opts pm.2 then some (mkFileRecord pm.1 pm.2) else none)) ∧
    (∀ name : String, matchesExtension name [] = true) ∧
    (∀ name : String, matchesNamePattern name none = true) ∧
    (∀ sz : Nat, matchesSizeFilter sz none = true) ∧
    (∀ content : Option String, containsSearchText content none = true) ∧
    (∀ (dirPath : String) (depth : Option ℚ) (tree stats json csv : Bool)
        (currentDepth : Nat) (pfx : List String) (readable : Bool)
        (entries : List FSEntry),
      scanDirectory ⟨dirPath, depth, [], none, none, none, tree, stats, json, csv⟩
          currentDepth pfx readable entries
        = (enumDirectory depth currentDepth pfx readable entries).map
            (fun pm => mkFileRecord pm.1 pm.2)) ∧
    (∀ (depth : Option ℚ) (currentDepth : Nat) (pfx : List String)
        (entries : List FSEntry),
      cleanEntries entries = true →
      enumLoop depth currentDepth pfx entries
        = allFilesLE depth currentDepth pfx entries) := by
  refine ⟨scanDirectory_eq_filterMap, fun _ => rfl, fun _ => rfl, fun _ => rfl,
    fun _ => rfl, ?_, enumLoop_eq_allFilesLE⟩
  intro dirPath depth tree stats json csv currentDepth pfx readable entries
  rw [scanDirectory_eq_filterMap]
  have hfun :
      (fun pm : List String × FileMeta =>
        if passesFilters ⟨dirPath, depth, [], none, none, none, tree, stats, json, csv⟩ pm.2
        then some (mkFileRecord pm.1 pm.2) else none)
      = fun pm : List String × FileMeta => some (mkFileRecord pm.1 pm.2) := by
    funext pm
    rw [passesFilters_disabled]
    simp
  rw [hfun, filterMap_some_eq_map]

theorem scan_filter_conjunction_witness :
    cleanEntries [FSEntry.dir "c" true [FSEntry.file ⟨"d.txt", 5, some "d", 0, 0⟩]] = true ∧
    enumLoop none 0 [] [FSEntry.dir "c" true [FSEntry.file ⟨"d.txt", 5, some "d", 0, 0⟩]]
      = allFilesLE none 0 [] [FSEntry.dir "c" true [FSEntry.file ⟨"d.txt", 5, some "d", 0, 0⟩]] :=
  ⟨by with_unfolding_all rfl, scan_filter_conjunction.2.2.2.2.2.2 none 0 []
    [FSEntry.dir "c" true [FSEntry.file ⟨"d.txt", 5, some "d", 0, 0⟩]]
    (by with_unfolding_all rfl)⟩

end DirScanner

namespace DirScanner

lemma scanLoop_depth_bound (opts : ScanOptions) (q : ℚ) (hq : opts.depth = some q)
    (currentDepth : Nat) (pfx : List String) (es : List FSEntry)
    (hlen : pfx.length = currentDepth)
    (hok : depthExceeded currentDepth opts.depth = false) :
    ∀ rec ∈ scanLoop opts currentDepth pfx es, (rec.relativePath.length : ℚ) ≤ q + 1 := by
  have hle : (currentDepth : ℚ) ≤ q := by
    rw [hq] at hok
    unfold depthExceeded at hok
    rw [decide_eq_false_iff_not] at hok
    exact not_lt.mp hok
  intro rec hrec
  match es with
  | [] => simp [scanLoop] at hrec
  | .broken nm :: rest => simp [scanLoop] at hrec
  | .file m :: rest =>
    rw [scanLoop] at hrec
    rw [List.mem_append] at hrec
    rcases hrec with hrec | hrec
    · have : rec = mkFileRecord pfx m := by
        by_cases hp : passesFilters opts m
        · rw [if_pos hp] at hrec
          simpa using hrec
        · rw [if_neg hp] at hrec
          simp at hrec
      rw [this]
      unfold mkFileRecord
      simp only [List.length_append, List.length_singleton, hlen]
      push_cast
      linarith
    · exact scanLoop_depth_bound opts q hq currentDepth pfx rest hlen hok rec hrec
  | .dir n r subs :: rest =>
    rw [scanLoop] at hrec
    rw [List.mem_append] at hrec
    rcases hrec with hrec | hrec
    · by_cases hd : depthExceeded (currentDepth + 1) opts.depth
      · rw [if_pos hd] at hrec
        simp at hrec
      · rw [if_neg hd] at hrec
        cases r with
        | true =>
          simp only [if_pos] at hrec
          refine scanLoop_depth_bound opts q hq (currentDepth + 1) (pfx ++ [n]) subs ?_
            (by simpa using hd) rec hrec
          simp [hlen]
        | false => simp at hrec
    · exact scanLoop_depth_bound opts q hq currentDepth pfx rest hlen hok rec hrec

/-- C2: with `maxDepth = d` (a non-negative number), every record
the traversal emits lies at path depth at most `d` below the root
(depth 0 being the root's direct children — a record's relative path
has at most `d + 1` segments), and a recursive call whose depth
exceeds the bound contributes nothing at all. -/
theorem scan_depth_invariant :
    (∀ (opts : ScanOptions) (q : ℚ) (readable : Bool) (entries : List FSEntry),
      opts.depth = some q → 0 ≤ q →
      ∀ rec ∈ scanDirectory opts 0 [] readable entries,
        (rec.relativePath.length : ℚ) - 1 ≤ q) ∧
    (∀ (opts : ScanOptions) (q : ℚ) (currentDepth : Nat) (pfx : List String)
        (readable : Bool) (entries : List FSEntry),
      opts.depth = some q → (currentDepth : ℚ) > q →
      scanDirectory opts currentDepth pfx readable entries = []) := by
  constructor
  · intro opts q readable entries hq hq0 rec hrec
    unfold scanDirectory at hrec
    have hok : depthExceeded 0 opts.depth = false := by
      rw [hq]
      unfold depthExceeded
      rw [decide_eq_false_iff_not]
      push_cast
      linarith
    rw [if_neg (by rw [hok]; simp)] at hrec
    cases readable with
    | true =>
      simp only [if_pos] at hrec
      have := scanLoop_depth_bound opts q hq 0 [] entries rfl hok rec hrec
      linarith
    | false => simp at hrec
  · intro opts q currentDepth pfx readable entries hq hgt
    unfold scanDirectory
    rw [if_pos]
    rw [hq]
    unfold depthExceeded
    simpa using hgt

theorem scan_depth_invariant_witness :
    scanDirectory ⟨"", some 1, [], none, none, none, false, false, false, false⟩ 5 [] true
        [FSEntry.file ⟨"a.txt", 3, some "x", 0, 0⟩] = [] :=
  scan_depth_invariant.2 ⟨"", some 1, [], none, none, none, false, false, false, false⟩
    1 5 [] true [FSEntry.file ⟨"a.txt", 3, some "x", 0, 0⟩] rfl (by norm_num)

end DirScanner

namespace DirScanner

/-- C9: the process exits 0 for a help invocation (usage printed, no
scan) and for any completed scan — zero matches included — and exits
1, without any traversal, for every configuration error (bad flag
value, unknown flag, missing path argument) and for every root-path
error (path not found, path not a directory).  A help invocation
takes precedence: `isHelpRequested` is checked before parsing. -/
theorem main_exit_codes :
    (∀ (args : List String) (root : Option FSEntry),
      isHelpRequested args = true →
      mainRun args root = .helpShown ∧ exitCode (mainRun args root) = 0 ∧
        scanPerformed (mainRun args root) = false) ∧
    (∀ (args : List String) (root : Option FSEntry) (msg : String),
      isHelpRequested args = false → parseArguments args = .error msg →
      mainRun args root = .configError msg ∧ exitCode (mainRun args root) = 1 ∧
        scanPerformed (mainRun args root) = false) ∧
    (∀ (args : List String) (opts : ScanOptions),
      isHelpRequested args = false → parseArguments args = .ok opts →
      (mainRun args none = .rootNotFound ∧ exitCode (mainRun args none) = 1 ∧
        scanPerformed (mainRun args none) = false) ∧
      (∀ m : FileMeta,
        mainRun args (some (.file m)) = .rootNotDirectory ∧
        exitCode (mainRun args (some (.file m))) = 1 ∧
        scanPerformed (mainRun args (some (.file m))) = false) ∧
      (∀ (n : String) (readable : Bool) (entries : List FSEntry),
        mainRun args (some (.dir n readable entries))
          = .completed (scanDirectory opts 0 [] readable entries) ∧
        exitCode (mainRun args (some (.dir n readable entries))) = 0)) ∧
    parseArguments ["--depth", "abc", "x"]
      = .error "Depth must be a non-negative number." ∧
    parseArguments ["--bogus", "x"] = .error "Unknown option: --bogus" ∧
    parseArguments ["--tree"]
      = .error "Missing directory path. Use --help for usage information." := by
  refine ⟨?_, ?_, ?_, by with_unfolding_all rfl, by with_unfolding_all rfl,
    by with_unfolding_all rfl⟩
  · intro args root hh
    unfold mainRun
    rw [if_pos hh]
    exact ⟨rfl, rfl, rfl⟩
  · intro args root msg hh hp
    unfold mainRun
    rw [if_neg (by rw [hh]; simp), hp]
    exact ⟨rfl, rfl, rfl⟩
  · intro args opts hh hp
    refine ⟨?_, ?_, ?_⟩
    · unfold mainRun
      rw [if_neg (by rw [hh]; simp), hp]
      exact ⟨rfl, rfl, rfl⟩
    · intro m
      unfold mainRun
      rw [if_neg (by rw [hh]; simp), hp]
      exact ⟨rfl, rfl, rfl⟩
    · intro n readable entries
      unfold mainRun
      rw [if_neg (by rw [hh]; simp), hp]
      exact ⟨rfl, rfl⟩

theorem main_exit_codes_witness :
    mainRun [] none = .helpShown ∧ exitCode (mainRun [] none) = 0 ∧
      scanPerformed (mainRun [] none) = false :=
  main_exit_codes.1 [] none rfl

end DirScanner
